import Mathlib

/-!
Shallow embedding of the identity-resolution and activity-aggregation
pipeline of `src/app/api/generate-analytics/route.ts` (with the
divergent launch-window check of `src/app/api/generate-story/route.ts`
embedded separately), together with theorems settling the frozen claims.

Modelling conventions:
* `Date.now()` is frozen for the whole request as `Env.nowMs`
  (milliseconds since the Unix epoch); the server clock is assumed UTC.
* Every external Alchemy call is a field of `Env`: a thrown promise is
  `Except.error ()`, a fulfilled one `Except.ok v`.  A JS falsy result
  (`null`, `undefined`, the empty string) is `none` / `""`.
* JS number arithmetic on these magnitudes (day counts, epoch
  milliseconds, `total * 0.0001` with `toFixed(4)` for totals ≤ 20000)
  is exact at the precision the program observes, so it is embedded as
  exact `Int`/`ℚ` arithmetic; `Math.floor` of a real quotient of
  integers is `Int.fdiv`.
* JS `Date` calendar arithmetic (local time assumed UTC) is embedded
  with the standard proleptic-Gregorian civil-from-days conversion,
  including the day-of-month overflow behaviour of `setMonth` /
  `setFullYear`.
* A JS object used as a counter map keyed by strings preserves
  insertion order, so `contractInteractions` is an insertion-ordered
  association list; `transactionCountsByMonth` is only ever read
  pointwise, so it is a function.
* `Array.prototype.sort` with comparator `(a, b) => b - a` is a stable
  descending sort, embedded as `List.insertionSort` with the relation
  `b.2 ≤ a.2` (which inserts right-to-left, hence stably).
-/

namespace OnchainStory

/-- 24*60*60*1000: one day in milliseconds. -/
def dayMs : Int := 86400000

/-! ### Calendar arithmetic (JS `Date`, UTC) -/

/-- Proleptic-Gregorian leap-year test, as used by JS `Date`. -/
def isLeap (y : Int) : Bool :=
  (y % 4 == 0 && y % 100 != 0) || y % 400 == 0

/-- Number of days of month `m` (1-based, 1..12) of year `y`. -/
def daysInMonth (y : Int) (m : Nat) : Nat :=
  match m with
  | 1 => 31
  | 2 => if isLeap y then 29 else 28
  | 3 => 31
  | 4 => 30
  | 5 => 31
  | 6 => 30
  | 7 => 31
  | 8 => 31
  | 9 => 30
  | 10 => 31
  | 11 => 30
  | _ => 31

/-- Civil date `(year, month 1..12, day 1..31)` of a day number counted
from 1970-01-01 (day 0), as computed by JS `Date` (UTC). -/
def civilFromDays (z0 : Int) : Int × Nat × Nat :=
  let z : Int := z0 + 719468
  let era : Int := Int.fdiv z 146097
  let doe : Nat := (z - era * 146097).toNat
  let yoe : Nat := (doe - doe / 1460 + doe / 36524 - doe / 146096) / 365
  let doy : Nat := doe - (365 * yoe + yoe / 4 - yoe / 100)
  let mp : Nat := (5 * doy + 2) / 153
  let d : Nat := doy - (153 * mp + 2) / 5 + 1
  let m : Nat := if mp < 10 then mp + 3 else mp - 9
  (((yoe : Int) + era * 400) + (if m ≤ 2 then 1 else 0), m, d)

/-- Day number (1970-01-01 = 0) of a civil date `(y, m 1..12, d 1..31)`. -/
def daysFromCivil (y : Int) (m : Nat) (d : Nat) : Int :=
  let y2 : Int := y - (if m ≤ 2 then 1 else 0)
  let era : Int := Int.fdiv y2 400
  let yoe : Nat := (y2 - era * 400).toNat
  let mp : Nat := if 2 < m then m - 3 else m + 9
  let doy : Nat := (153 * mp + 2) / 5 + d - 1
  let doe : Nat := yoe * 365 + yoe / 4 - yoe / 100 + doy
  era * 146097 + (doe : Int) - 719468

/-- Normalise a date whose day may exceed the month length (the
day-of-month overflow of JS `setMonth` / `setFullYear`; here the
overflow is at most 3 days, so it always lands in the next month). -/
def normalizeDate (y : Int) (m : Nat) (d : Nat) : Int × Nat × Nat :=
  if d ≤ daysInMonth y m then (y, m, d)
  else if m = 12 then (y + 1, 1, d - daysInMonth y 12)
  else (y, m + 1, d - daysInMonth y m)

/-- The `(year, month 1..12)` label of `toLocaleString("en-US",
{month: "short", year: "numeric"})`; distinct `(year, month)` pairs
render as distinct strings, so the pair is the label. -/
def monthLabel (ms : Int) : Int × Nat :=
  let c := civilFromDays (Int.fdiv ms dayMs)
  (c.1, c.2.1)

/-- `(year, month)` label after `date.setMonth(m0)` on a date with year
`y` and day-of-month `d`; `m0` is a 0-based month index, possibly
negative (JS normalises it across years, then rolls day overflow). -/
def setMonthLabel (y : Int) (m0 : Int) (d : Nat) : Int × Nat :=
  let ym : Int := y * 12 + m0
  let y2 : Int := Int.fdiv ym 12
  let m2 : Nat := (Int.emod ym 12).toNat + 1
  let n := normalizeDate y2 m2 d
  (n.1, n.2.1)

/-- `oneYearAgo.getTime()` for `oneYearAgo = new Date();
oneYearAgo.setFullYear(getFullYear() - 1)`: same month, day and
time-of-day one calendar year earlier (Feb 29 rolls to Mar 1). -/
def oneYearAgoMs (nowMs : Int) : Int :=
  let days := Int.fdiv nowMs dayMs
  let tod := Int.emod nowMs dayMs
  let c := civilFromDays days
  let n := normalizeDate (c.1 - 1) c.2.1 c.2.2
  daysFromCivil n.1 n.2.1 n.2.2 * dayMs + tod

/-! ### Data model -/

/-- A block as returned by `getBlock`: only the timestamp is read;
`parseInt(block.timestamp, 16)` yields seconds since the epoch. -/
structure Block where
  timestamp : Nat
deriving Repr, DecidableEq

/-- Milliseconds of a block's timestamp:
`Number.parseInt(block.timestamp, 16) * 1000`. -/
def msOfBlock (b : Block) : Int := (b.timestamp : Int) * 1000

/-- An asset transfer as consumed by the pipeline: only `blockNum` and
`to` are read; `toAddr` embeds the `to` field (`to` is reserved in
Lean), with `none` for a null/absent counterparty. -/
structure Transfer where
  blockNum : String
  toAddr : Option String
deriving Repr, DecidableEq

/-- An owned NFT: `title` and `contract.name`, with `""` for a
falsy (absent or empty) value. -/
structure Nft where
  title : String
  contractName : String
deriving Repr, DecidableEq

/-- The two networks queried by the pipeline. -/
inductive Net
  | eth
  | base
deriving Repr, DecidableEq

/-- One external call made by the request, for call-count assertions. -/
inductive ExtCall
  | lookupAddress (addr : String)
  | resolveName (input : String)
  | fetchTransfers (net : Net)
  | getBlock (net : Net) (blockNum : String)
  | getNfts (net : Net)
deriving Repr, DecidableEq

/-- The outcomes of all external calls a request can make.
`Except.error ()` models a rejected promise. -/
structure Env where
  nowMs : Int
  lookupAddress : String → Except Unit (Option String)
  resolveName : String → Except Unit (Option String)
  ethTransfers : Except Unit (List Transfer)
  baseTransfers : Except Unit (List Transfer)
  getBlockEth : String → Except Unit (Option Block)
  getBlockBase : String → Except Unit (Option Block)
  baseNfts : Except Unit (List Nft)
  ethNfts : Except Unit (List Nft)

/-! ### Identity resolution -/

/-- One character of `[a-fA-F0-9]`. -/
def isHexChar (c : Char) : Bool :=
  c.isDigit || ('a' ≤ c && c ≤ 'f') || ('A' ≤ c && c ≤ 'F')

/-- The test `/^0x[a-fA-F0-9]{40}$/.test(s)`, on the character list of
the string: exactly `"0x"` followed by 40 hex digits. -/
def hexTest (s : String) : Bool :=
  s.length == 42 && s.data.take 2 == ['0', 'x'] && (s.data.drop 2).all isHexChar

/-- The test `/^[a-fA-F0-9]{40}$/.test(s)`. -/
def plainHexTest (s : String) : Bool :=
  s.length == 40 && s.data.all isHexChar

/-- The reverse ENS lookup is best-effort: a thrown lookup leaves
`displayEnsName` null. -/
def bestEffortName (res : Except Unit (Option String)) : Option String :=
  match res with
  | .error _ => none
  | .ok n => n

/-- The ENS/address resolution block of the route: returns the resolved
wallet address together with the optional display ENS name, or `none`
when the input is unresolvable (the route then answers 400). -/
def resolveIdentity (env : Env) (rawInput : String) : Option (String × Option String) :=
  if hexTest rawInput then
    some (rawInput.toLower, bestEffortName (env.lookupAddress rawInput.toLower))
  else if plainHexTest rawInput then
    some ("0x" ++ rawInput.toLower, bestEffortName (env.lookupAddress ("0x" ++ rawInput.toLower)))
  else
    match env.resolveName rawInput with
    | .error _ => none
    | .ok none => none
    | .ok (some addr) => some (addr, some rawInput.toLower)

/-- The external calls made by the resolution block. -/
def resolutionCalls (rawInput : String) : List ExtCall :=
  if hexTest rawInput then [ExtCall.lookupAddress rawInput.toLower]
  else if plainHexTest rawInput then [ExtCall.lookupAddress ("0x" ++ rawInput.toLower)]
  else [ExtCall.resolveName rawInput]

/-! ### Aggregation state and `processTransaction` -/

/-- Increment the counter of key `k` in an insertion-ordered
association list (the JS object update `o[k] = (o[k] || 0) + 1`):
the first occurrence is incremented, a fresh key is appended. -/
def bump : List (String × Nat) → String → List (String × Nat)
  | [], k => [(k, 1)]
  | (a, n) :: t, k => if a = k then (a, n + 1) :: t else (a, n) :: bump t k

/-- Pointwise increment of the month-bucket counter
(`transactionCountsByMonth[monthYear] = (… || 0) + 1`). -/
def bumpF (f : Int × Nat → Nat) (k : Int × Nat) : Int × Nat → Nat :=
  fun x => if x = k then f x + 1 else f x

/-- The mutable accumulation state of the analytics route. -/
structure AggState where
  totalTransactions : Nat
  contractInteractions : List (String × Nat)
  countsByMonth : Int × Nat → Nat
  walletAgeDays : Int

/-- All counters start at zero. -/
def initialState : AggState :=
  { totalTransactions := 0
    contractInteractions := []
    countsByMonth := fun _ => 0
    walletAgeDays := 0 }

/-- `processTransaction(tx, alchemyClient)` of the analytics route:
counts the transaction and its counterparty, then best-effort resolves
the block timestamp; on success it buckets the transaction into its
month (if within the trailing year) and updates `walletAgeDays`; a
thrown or null `getBlock` skips only the timestamp-dependent part. -/
def processTransaction (nowMs oneYearAgo : Int)
    (getBlock : String → Except Unit (Option Block))
    (st : AggState) (tx : Transfer) : AggState :=
  let st1 : AggState :=
    { st with
      totalTransactions := st.totalTransactions + 1
      contractInteractions :=
        match tx.toAddr with
        | some a => bump st.contractInteractions a
        | none => st.contractInteractions }
  match getBlock tx.blockNum with
  | .error _ => st1
  | .ok none => st1
  | .ok (some b) =>
    let t := msOfBlock b
    let st2 : AggState :=
      if oneYearAgo ≤ t then
        { st1 with countsByMonth := bumpF st1.countsByMonth (monthLabel t) }
      else st1
    if st2.walletAgeDays = 0 ∨ st2.walletAgeDays * dayMs < nowMs - t then
      { st2 with walletAgeDays := Int.fdiv (nowMs - t) dayMs }
    else st2

/-! ### Collection and the aggregate record -/

/-- The transfer list the ETH loop runs over: a thrown fetch is caught
with the state untouched, which is the same as processing no
transfers. -/
def collectedEth (env : Env) : List Transfer :=
  match env.ethTransfers with
  | .ok l => l
  | .error _ => []

/-- The transfer list the Base loop runs over (same recovery). -/
def collectedBase (env : Env) : List Transfer :=
  match env.baseTransfers with
  | .ok l => l
  | .error _ => []

/-- State after the Ethereum-mainnet loop. -/
def stateAfterEth (env : Env) : AggState :=
  (collectedEth env).foldl
    (processTransaction env.nowMs (oneYearAgoMs env.nowMs) env.getBlockEth)
    initialState

/-- State after both per-network loops. -/
def finalState (env : Env) : AggState :=
  (collectedBase env).foldl
    (processTransaction env.nowMs (oneYearAgoMs env.nowMs) env.getBlockBase)
    (stateAfterEth env)

/-- `new Date("2023-08-09T00:00:00Z").getTime()`. -/
def baseLaunchMs : Int := 1691539200000

/-- The Base-launch-participant check of the analytics route: the last
fetched Base transfer (the earliest, as the fetch requests descending
order) must have a resolvable block timestamp inside
`[baseLaunchMs, baseLaunchMs + 30 days)`; a thrown `getBlock` is caught
by the surrounding handler leaving the flag false. -/
def baseLaunchFlag (env : Env) : Bool :=
  match (collectedBase env).getLast? with
  | none => false
  | some tx =>
    match env.getBlockBase tx.blockNum with
    | .error _ => false
    | .ok none => false
    | .ok (some b) =>
      decide (baseLaunchMs ≤ msOfBlock b ∧ msOfBlock b - baseLaunchMs < 30 * 24 * 60 * 60 * 1000)

/-- The Base-launch-participant check of `generate-story/route.ts`
(line 140): it tests only `firstBaseTxDate - baseLaunchDate < 30 days`,
without the lower bound of the analytics route. -/
def storyBaseLaunchFlag (env : Env) : Bool :=
  match (collectedBase env).getLast? with
  | none => false
  | some tx =>
    match env.getBlockBase tx.blockNum with
    | .error _ => false
    | .ok none => false
    | .ok (some b) => decide (msOfBlock b - baseLaunchMs < 30 * 24 * 60 * 60 * 1000)

/-- `"a unique digital artifact"`, the initial/default notable NFT. -/
def defaultNotable : String := "a unique digital artifact"

/-- `"a notable NFT"`, the fallback when an owned NFT has neither a
title nor a contract name. -/
def untitledNotable : String := "a notable NFT"

/-- `nft.title || nft.contract?.name || "a notable NFT"`. -/
def firstNonempty (n : Nft) : String :=
  if n.title ≠ "" then n.title
  else if n.contractName ≠ "" then n.contractName
  else untitledNotable

/-- The notable-NFT computation: the Base lookup first; the Ethereum
lookup overwrites only when the value is still the default; a thrown or
empty lookup leaves the value unchanged. -/
def notableNft (env : Env) : String :=
  let cur :=
    match env.baseNfts with
    | .ok (n :: _) => firstNonempty n
    | _ => defaultNotable
  match env.ethNfts with
  | .ok (n :: _) => if cur = defaultNotable then firstNonempty n else cur
  | _ => cur

/-- `address.slice(0, 6) + "..."` (JS `slice` works on code units;
the addresses here are ASCII, so the first 6 characters). -/
def shorten (s : String) : String := String.mk (s.data.take 6 ++ ['.', '.', '.'])

/-- The comparator `(,a) (,b) => b - a` on count pairs: descending by
count. -/
def dappRel : String × Nat → String × Nat → Prop := fun a b => b.2 ≤ a.2

instance : DecidableRel dappRel := fun a b => Nat.decLe b.2 a.2

instance : IsTotal (String × Nat) dappRel :=
  ⟨fun a b => Nat.le_total b.2 a.2⟩

instance : IsTrans (String × Nat) dappRel :=
  ⟨fun _ _ _ h1 h2 => Nat.le_trans h2 h1⟩

/-- `Object.entries(contractInteractions).sort((b-a)).slice(0,5).map(shorten)`;
JS `sort` is stable, which `insertionSort` realises. -/
def sortedDapps (inter : List (String × Nat)) : List (String × Nat) :=
  ((inter.insertionSort dappRel).take 5).map (fun p => (shorten p.1, p.2))

/-- The 12-entry trailing-month histogram: for `i = 11 … 0`,
`new Date(now).setMonth(getMonth() - i)` labels the bucket and the
month counter (or 0) is read. -/
def formattedHistory (nowMs : Int) (counts : Int × Nat → Nat) : List ((Int × Nat) × Nat) :=
  let c := civilFromDays (Int.fdiv nowMs dayMs)
  (List.range 12).map (fun j =>
    let label := setMonthLabel c.1 ((c.2.1 : Int) - 1 - ((11 - j : Nat) : Int)) c.2.2
    (label, counts label))

/-- The terminal derived analytics record of one request. -/
structure Analytics where
  walletAgeDays : Int
  totalTransactions : Nat
  gasSpentEth : ℚ
  baseTransactions : Nat
  baseLaunchParticipant : Bool
  notableBaseNft : String
  transactionHistory : List ((Int × Nat) × Nat)
  topDappInteractions : List (String × Nat)
deriving Repr, DecidableEq

/-- The whole post-resolution aggregation of the analytics route.
`gasSpentEth = parseFloat((totalTransactions * 0.0001).toFixed(4))`:
for the at most 20000 transfers a request can count, the float result
rounds exactly to `total / 10000`, embedded as the exact rational. -/
def runAggregation (env : Env) : Analytics :=
  let st := finalState env
  { walletAgeDays := st.walletAgeDays
    totalTransactions := st.totalTransactions
    gasSpentEth := (st.totalTransactions : ℚ) / 10000
    baseTransactions := (collectedBase env).length
    baseLaunchParticipant := baseLaunchFlag env
    notableBaseNft := notableNft env
    transactionHistory := formattedHistory env.nowMs st.countsByMonth
    topDappInteractions := sortedDapps st.contractInteractions }

/-- The 400 error body for an unresolvable input. -/
def errUnresolvable : String :=
  "Invalid wallet address or unresolvable ENS name. Please check your input."

/-- `ensName ?? addr.slice(0,6) + "..." + addr.slice(-4)`. -/
def shortAddr (s : String) : String :=
  String.mk (s.data.take 6 ++ ['.', '.', '.'] ++ s.data.drop (s.data.length - 4))

/-- The analytics POST handler past request validation: resolution,
then — only on success — aggregation.  The response carries the display
name and the analytics record. -/
def analyticsPOST (env : Env) (rawInput : String) : Except String (String × Analytics) :=
  match resolveIdentity env rawInput with
  | none => .error errUnresolvable
  | some (addr, name) => .ok (name.getD (shortAddr addr), runAggregation env)

/-- The downstream external calls of a successful resolution, in
program order: the ETH fetch, per-ETH-transfer `getBlock`s, the Base
fetch, per-Base-transfer `getBlock`s, the launch-check `getBlock` on
the earliest Base transfer, then the two NFT-ownership lookups. -/
def aggregationCalls (env : Env) : List ExtCall :=
  [ExtCall.fetchTransfers Net.eth]
    ++ (collectedEth env).map (fun tx => ExtCall.getBlock Net.eth tx.blockNum)
    ++ [ExtCall.fetchTransfers Net.base]
    ++ (collectedBase env).map (fun tx => ExtCall.getBlock Net.base tx.blockNum)
    ++ (match (collectedBase env).getLast? with
        | some tx => [ExtCall.getBlock Net.base tx.blockNum]
        | none => [])
    ++ [ExtCall.getNfts Net.base, ExtCall.getNfts Net.eth]

/-- All external calls of one request. -/
def postCalls (env : Env) (rawInput : String) : List ExtCall :=
  resolutionCalls rawInput ++
    (match resolveIdentity env rawInput with
     | none => []
     | some _ => aggregationCalls env)

/-! ### Derived observation functions used by the claims -/

/-- The block timestamp (in ms) a single best-effort `getBlock` lookup
resolves for a transfer, if any. -/
def resolvedMs (gb : String → Except Unit (Option Block)) (tx : Transfer) : Option Int :=
  match gb tx.blockNum with
  | .ok (some b) => some (msOfBlock b)
  | _ => none

/-- The timestamps successfully resolved while processing a transfer
list. -/
def resolvedTimesOf (gb : String → Except Unit (Option Block)) (l : List Transfer) : List Int :=
  l.filterMap (resolvedMs gb)

/-- All timestamps successfully resolved across both networks, in
processing order. -/
def resolvedTimes (env : Env) : List Int :=
  resolvedTimesOf env.getBlockEth (collectedEth env)
    ++ resolvedTimesOf env.getBlockBase (collectedBase env)

/-- The evolution of `walletAgeDays` at one resolved timestamp `t`. -/
def ageStep (nowMs : Int) (w t : Int) : Int :=
  if w = 0 ∨ w * dayMs < nowMs - t then Int.fdiv (nowMs - t) dayMs else w

/-- Stated from the claim (C2): the age in days is
`floor((now − t_min) / 1 day)` where `t_min` is the minimum timestamp
successfully resolved over all transfers examined on both networks,
and `0` when no timestamp resolves. -/
def ageInDaysClaimed (env : Env) : Int :=
  match (resolvedTimes env).min? with
  | none => 0
  | some tmin => Int.fdiv (env.nowMs - tmin) dayMs

/-- The value stored under key `k` in an association list (`o[k]`,
`0` when absent; keys are unique by construction). -/
def lookupCount : List (String × Nat) → String → Nat
  | [], _ => 0
  | (a, n) :: t, k => if a = k then n else lookupCount t k

/-- Index of the first occurrence of `k` in `l` (length of `l` when
absent): the first-encounter order of counterparties. -/
def firstIdx : List String → String → Nat
  | [], _ => 0
  | a :: t, k => if a = k then 0 else firstIdx t k + 1

/-- The month labels of the transfers that were both
timestamp-resolved and inside the trailing-year window, in processing
order: exactly the bucket increments of the histogram. -/
def windowLabels (oneYearAgo : Int) (gb : String → Except Unit (Option Block))
    (l : List Transfer) : List (Int × Nat) :=
  ((resolvedTimesOf gb l).filter (fun t => decide (oneYearAgo ≤ t))).map monthLabel

/-- All bucket increments of one request. -/
def allWindowLabels (env : Env) : List (Int × Nat) :=
  windowLabels (oneYearAgoMs env.nowMs) env.getBlockEth (collectedEth env)
    ++ windowLabels (oneYearAgoMs env.nowMs) env.getBlockBase (collectedBase env)

/-- The counterparty sequence of the processed transfers (transfers
without a counterparty dropped), in processing order. -/
def toSeq (env : Env) : List String :=
  (collectedEth env ++ collectedBase env).filterMap Transfer.toAddr

/-! ### Field-wise description of `processTransaction` -/

theorem processTransaction_total (nowMs oya : Int) (gb : String → Except Unit (Option Block))
    (st : AggState) (tx : Transfer) :
    (processTransaction nowMs oya gb st tx).totalTransactions = st.totalTransactions + 1 := by
  unfold processTransaction
  rcases gb tx.blockNum with _ | b
  · rfl
  · rcases b with _ | b
    · rfl
    · dsimp only
      split
      · split <;> rfl
      · split <;> rfl

theorem processTransaction_inter (nowMs oya : Int) (gb : String → Except Unit (Option Block))
    (st : AggState) (tx : Transfer) :
    (processTransaction nowMs oya gb st tx).contractInteractions =
      match tx.toAddr with
      | some a => bump st.contractInteractions a
      | none => st.contractInteractions := by
  unfold processTransaction
  rcases gb tx.blockNum with _ | b
  · rfl
  · rcases b with _ | b
    · rfl
    · dsimp only
      split
      · split <;> rfl
      · split <;> rfl

theorem processTransaction_age (nowMs oya : Int) (gb : String → Except Unit (Option Block))
    (st : AggState) (tx : Transfer) :
    (processTransaction nowMs oya gb st tx).walletAgeDays =
      match resolvedMs gb tx with
      | none => st.walletAgeDays
      | some t => ageStep nowMs st.walletAgeDays t := by
  unfold processTransaction resolvedMs ageStep
  rcases gb tx.blockNum with _ | b
  · rfl
  · rcases b with _ | b
    · rfl
    · dsimp only
      split
      · split <;> simp_all
      · split <;> simp_all

theorem processTransaction_counts (nowMs oya : Int) (gb : String → Except Unit (Option Block))
    (st : AggState) (tx : Transfer) :
    (processTransaction nowMs oya gb st tx).countsByMonth =
      match resolvedMs gb tx with
      | none => st.countsByMonth
      | some t =>
        if oya ≤ t then bumpF st.countsByMonth (monthLabel t) else st.countsByMonth := by
  unfold processTransaction resolvedMs
  rcases gb tx.blockNum with _ | b
  · rfl
  · rcases b with _ | b
    · rfl
    · dsimp only
      split
      · split <;> simp_all
      · split <;> simp_all

/-! ### Fold lemmas -/

theorem foldl_total (nowMs oya : Int) (gb : String → Except Unit (Option Block)) :
    ∀ (l : List Transfer) (st : AggState),
      ((l.foldl (processTransaction nowMs oya gb) st).totalTransactions) =
        st.totalTransactions + l.length
  | [], st => by simp
  | tx :: l, st => by
    rw [List.foldl_cons, foldl_total nowMs oya gb l, processTransaction_total]
    simp [Nat.add_assoc, Nat.add_comm 1 l.length]

theorem foldl_age (nowMs oya : Int) (gb : String → Except Unit (Option Block)) :
    ∀ (l : List Transfer) (st : AggState),
      ((l.foldl (processTransaction nowMs oya gb) st).walletAgeDays) =
        (resolvedTimesOf gb l).foldl (ageStep nowMs) st.walletAgeDays
  | [], st => by simp [resolvedTimesOf]
  | tx :: l, st => by
    rw [List.foldl_cons, foldl_age nowMs oya gb l]
    have hage := processTransaction_age nowMs oya gb st tx
    unfold resolvedTimesOf
    rw [List.filterMap_cons]
    rcases h : resolvedMs gb tx with _ | t
    · simp only [h] at hage ⊢
      rw [hage]
    · simp only [h] at hage ⊢
      rw [hage]
      rfl

theorem foldl_counts (nowMs oya : Int) (gb : String → Except Unit (Option Block)) :
    ∀ (l : List Transfer) (st : AggState) (k : Int × Nat),
      ((l.foldl (processTransaction nowMs oya gb) st).countsByMonth) k =
        st.countsByMonth k + (windowLabels oya gb l).count k
  | [], st, k => by simp [windowLabels, resolvedTimesOf]
  | tx :: l, st, k => by
    rw [List.foldl_cons, foldl_counts nowMs oya gb l]
    have hc := processTransaction_counts nowMs oya gb st tx
    unfold windowLabels resolvedTimesOf at *
    rw [List.filterMap_cons]
    rcases h : resolvedMs gb tx with _ | t
    · simp only [h] at hc ⊢
      rw [hc]
    · simp only [h] at hc ⊢
      rw [hc]
      by_cases hw : oya ≤ t
      · rw [if_pos hw, List.filter_cons_of_pos (by simpa using hw), List.map_cons,
          List.count_cons]
        simp only [bumpF]
        by_cases hk : k = monthLabel t
        · simp [hk, Nat.add_assoc, Nat.add_comm 1]
        · simp [hk, Ne.symm hk]
      · rw [if_neg hw, List.filter_cons_of_neg (by simpa using hw)]

theorem foldl_lookup (nowMs oya : Int) (gb : String → Except Unit (Option Block)) :
    ∀ (l : List Transfer) (st : AggState) (a : String),
      lookupCount ((l.foldl (processTransaction nowMs oya gb) st).contractInteractions) a =
        lookupCount st.contractInteractions a + (l.filterMap Transfer.toAddr).count a
  | [], st, a => by simp
  | tx :: l, st, a => by
    rw [List.foldl_cons, foldl_lookup nowMs oya gb l]
    have hi := processTransaction_inter nowMs oya gb st tx
    rw [List.filterMap_cons]
    rcases h : tx.toAddr with _ | k
    · simp only [h] at hi ⊢
      rw [hi]
    · simp only [h] at hi ⊢
      rw [hi, List.count_cons, lookup_bump]
      by_cases hk : k = a
      · simp only [hk, if_pos rfl, beq_self_eq_true, if_true]
        omega
      · have hk2 : (k == a) = false := by simpa using hk
        simp [hk, hk2]
where
  lookup_bump : ∀ (l : List (String × Nat)) (k a : String),
      lookupCount (bump l k) a = lookupCount l a + (if k = a then 1 else 0)
    | [], k, a => by
      by_cases hk : k = a <;> simp [bump, lookupCount, hk]
    | (b, n) :: t, k, a => by
      by_cases hb : b = k
      · subst hb
        by_cases hk : b = a <;> simp [bump, lookupCount, hk]
      · by_cases ha : b = a
        · subst ha
          have : ¬ k = b := fun h => hb h.symm
          simp [bump, lookupCount, hb, this]
        · simp [bump, lookupCount, hb, ha, lookup_bump t k a]

/-! ### Arithmetic facts about floor division by one day -/

theorem dayMs_pos : (0 : Int) < dayMs := by decide

theorem fdiv_day_eq_ediv (a : Int) : Int.fdiv a dayMs = a / dayMs :=
  Int.fdiv_eq_ediv a (le_of_lt dayMs_pos)

theorem fdiv_day_nonneg {a : Int} (h : 0 ≤ a) : 0 ≤ Int.fdiv a dayMs := by
  rw [fdiv_day_eq_ediv]
  exact Int.ediv_nonneg h (le_of_lt dayMs_pos)

theorem fdiv_day_mono {a b : Int} (h : a ≤ b) :
    Int.fdiv a dayMs ≤ Int.fdiv b dayMs := by
  rw [fdiv_day_eq_ediv, fdiv_day_eq_ediv]
  exact Int.ediv_le_ediv dayMs_pos h

theorem le_fdiv_day_of_mul_le {w a : Int} (h : w * dayMs ≤ a) :
    w ≤ Int.fdiv a dayMs := by
  rw [fdiv_day_eq_ediv]
  exact (Int.le_ediv_iff_mul_le dayMs_pos).mpr h

theorem fdiv_day_le_of_le_mul {w a : Int} (h : a ≤ w * dayMs) :
    Int.fdiv a dayMs ≤ w := by
  have := fdiv_day_mono h
  rwa [fdiv_day_eq_ediv (w * dayMs), Int.mul_ediv_cancel w (ne_of_gt dayMs_pos)] at this

/-- One step of the wallet-age update, started from the floor age of
the minimum `m` seen so far, yields the floor age of `min m t` —
provided no timestamp is in the future. -/
theorem ageStep_fdiv (nowMs m t : Int) (_hm : m ≤ nowMs) (ht : t ≤ nowMs) :
    ageStep nowMs (Int.fdiv (nowMs - m) dayMs) t = Int.fdiv (nowMs - min m t) dayMs := by
  unfold ageStep
  by_cases hmt : m ≤ t
  · rw [min_eq_left hmt]
    split
    · rename_i hcond
      rcases hcond with hw0 | hwlt
      · have h1 : Int.fdiv (nowMs - t) dayMs ≤ Int.fdiv (nowMs - m) dayMs :=
          fdiv_day_mono (by omega)
        have h2 : 0 ≤ Int.fdiv (nowMs - t) dayMs := fdiv_day_nonneg (by omega)
        omega
      · have h1 : Int.fdiv (nowMs - m) dayMs ≤ Int.fdiv (nowMs - t) dayMs :=
          le_fdiv_day_of_mul_le (le_of_lt hwlt)
        have h2 : Int.fdiv (nowMs - t) dayMs ≤ Int.fdiv (nowMs - m) dayMs :=
          fdiv_day_mono (by omega)
        omega
    · rfl
  · rw [min_eq_right (by omega)]
    split
    · rfl
    · rename_i hcond
      push_neg at hcond
      exact le_antisymm
        (fdiv_day_mono (by omega))
        (fdiv_day_le_of_le_mul hcond.2)

theorem ageFold_min (nowMs : Int) :
    ∀ (ts : List Int) (m : Int), m ≤ nowMs → (∀ t ∈ ts, t ≤ nowMs) →
      ts.foldl (ageStep nowMs) (Int.fdiv (nowMs - m) dayMs) =
        Int.fdiv (nowMs - ts.foldl min m) dayMs
  | [], m, _, _ => rfl
  | t :: ts, m, hm, hts => by
    rw [List.foldl_cons, List.foldl_cons,
      ageStep_fdiv nowMs m t hm (hts t (by simp))]
    exact ageFold_min nowMs ts (min m t) (le_trans (min_le_left _ _) hm)
      (fun u hu => hts u (by simp [hu]))

/-- The final `walletAgeDays` is exactly the claimed global-minimum
formula — provided every resolved timestamp is not in the future. -/
theorem walletAge_spec (env : Env)
    (hts : ∀ t ∈ resolvedTimes env, t ≤ env.nowMs) :
    (finalState env).walletAgeDays = ageInDaysClaimed env := by
  have hfold : (finalState env).walletAgeDays =
      (resolvedTimes env).foldl (ageStep env.nowMs) 0 := by
    unfold finalState
    rw [foldl_age]
    unfold stateAfterEth
    rw [foldl_age]
    unfold resolvedTimes
    rw [List.foldl_append]
    rfl
  rw [hfold]
  unfold ageInDaysClaimed
  rcases hrt : resolvedTimes env with _ | ⟨t, ts⟩
  · rfl
  · rw [hrt] at hts
    have ht : t ≤ env.nowMs := hts t (by simp)
    have h0 : ageStep env.nowMs 0 t = Int.fdiv (env.nowMs - t) dayMs := by
      unfold ageStep
      rw [if_pos (Or.inl rfl)]
    simp only [List.min?, List.foldl_cons, h0]
    exact ageFold_min env.nowMs ts t ht (fun u hu => hts u (by simp [hu]))

theorem finalState_total (env : Env) :
    (finalState env).totalTransactions =
      (collectedEth env).length + (collectedBase env).length := by
  unfold finalState
  rw [foldl_total]
  unfold stateAfterEth
  rw [foldl_total]
  simp [initialState]

theorem foldl_min_le (nowMs : Int) :
    ∀ (ts : List Int) (t : Int), t ≤ nowMs → (∀ u ∈ ts, u ≤ nowMs) →
      ts.foldl min t ≤ nowMs
  | [], t, ht, _ => ht
  | u :: ts, t, ht, hts => by
    rw [List.foldl_cons]
    exact foldl_min_le nowMs ts (min t u) (le_trans (min_le_left _ _) ht)
      (fun v hv => hts v (by simp [hv]))

/-! ### Concrete environments for witnesses and counterexamples -/

/-- A neutral environment: every lookup succeeds with an empty result. -/
def baseEnv : Env :=
  { nowMs := 1700000000000
    lookupAddress := fun _ => .ok none
    resolveName := fun _ => .ok none
    ethTransfers := .ok []
    baseTransfers := .ok []
    getBlockEth := fun _ => .ok none
    getBlockBase := fun _ => .ok none
    baseNfts := .ok []
    ethNfts := .ok [] }

/-- ETH fetch throws, Base returns three transfers. -/
def envW1 : Env :=
  { baseEnv with
    ethTransfers := .error ()
    baseTransfers := .ok [⟨"0xb1", none⟩, ⟨"0xb2", none⟩, ⟨"0xb3", none⟩] }

/-- Two ETH transfers: one half a day old, one half a day in the
future (their raw ages are 0.5 and −0.5 days). -/
def envC2x : Env :=
  { baseEnv with
    ethTransfers := .ok [⟨"0x1", none⟩, ⟨"0x2", none⟩]
    getBlockEth := fun bn =>
      if bn = "0x1" then .ok (some ⟨1699956800⟩) else .ok (some ⟨1700043200⟩) }

/-- One ETH transfer whose resolved timestamp is about 11.6 days in the
past. -/
def envW2 : Env :=
  { baseEnv with
    ethTransfers := .ok [⟨"0xa", none⟩]
    getBlockEth := fun _ => .ok (some ⟨1699000000⟩) }

/-- One ETH transfer whose resolved timestamp is two days in the
future. -/
def envC9x : Env :=
  { baseEnv with
    ethTransfers := .ok [⟨"0xa", none⟩]
    getBlockEth := fun _ => .ok (some ⟨1700172800⟩) }

/-! ### C1 — per-network failure isolation -/

/-- C1: past identity resolution, a thrown transfer fetch on one
network is recovered as an empty transfer sequence: if the other
network returns `l`, the aggregate still counts exactly `l.length`
transactions, and the request (for any resolvable input) answers
`.ok`, never an error. -/
theorem c1_network_isolation (env : Env) (l : List Transfer) :
    (env.ethTransfers = .error () → env.baseTransfers = .ok l →
      (runAggregation env).totalTransactions = l.length)
    ∧ (env.baseTransfers = .error () → env.ethTransfers = .ok l →
      (runAggregation env).totalTransactions = l.length)
    ∧ (∀ raw p, resolveIdentity env raw = some p →
        analyticsPOST env raw = .ok (p.2.getD (shortAddr p.1), runAggregation env)) := by
  refine ⟨?_, ?_, ?_⟩
  · intro he hb
    have : (runAggregation env).totalTransactions =
        (collectedEth env).length + (collectedBase env).length := finalState_total env
    rw [this]
    unfold collectedEth collectedBase
    rw [he, hb]
    simp
  · intro hb he
    have : (runAggregation env).totalTransactions =
        (collectedEth env).length + (collectedBase env).length := finalState_total env
    rw [this]
    unfold collectedEth collectedBase
    rw [he, hb]
    simp
  · intro raw p hp
    unfold analyticsPOST
    rw [hp]

/-- Witness for C1 at the spec's degradation scenario: ETH throws,
Base returns 3 transfers, and the aggregate reports exactly 3. -/
theorem c1_witness :
    envW1.ethTransfers = .error () ∧
      envW1.baseTransfers = .ok [⟨"0xb1", none⟩, ⟨"0xb2", none⟩, ⟨"0xb3", none⟩] ∧
      (runAggregation envW1).totalTransactions = 3 :=
  ⟨rfl, rfl, (c1_network_isolation envW1 [⟨"0xb1", none⟩, ⟨"0xb2", none⟩, ⟨"0xb3", none⟩]).1 rfl rfl⟩

/-! ### C2 — wallet age -/

/-- C2 as stated is false on the code: with a transfer aged half a day
processed before a transfer half a day in the future, the
`walletAgeDays === 0` clause retriggers and stores −1, while the
claimed global-minimum formula yields 0. -/
theorem c2_counterexample :
    (runAggregation envC2x).walletAgeDays ≠ ageInDaysClaimed envC2x := by
  decide

/-- C2 amended: provided every resolved timestamp is not later than
`now`, the reported wallet age equals
`floor((now − t_min) / 1 day)` for `t_min` the minimum timestamp
resolved across ALL transfers examined on both networks (0 when none
resolves); the formula is order-independent. -/
theorem c2_age_global_min (env : Env)
    (hts : ∀ t ∈ resolvedTimes env, t ≤ env.nowMs) :
    (runAggregation env).walletAgeDays = ageInDaysClaimed env :=
  walletAge_spec env hts

/-- Witness for C2 on a past-dated transfer. -/
theorem c2_witness :
    (∀ t ∈ resolvedTimes envW2, t ≤ envW2.nowMs) ∧
      (runAggregation envW2).walletAgeDays = ageInDaysClaimed envW2 :=
  ⟨by decide, c2_age_global_min envW2 (by decide)⟩

/-! ### C9 — non-negativity of the overview -/

/-- C9 as stated (quantifying over timestamps later than now) is false
on the code: a single transfer two days in the future yields a
negative `walletAgeDays`. -/
theorem c9_counterexample : (runAggregation envC9x).walletAgeDays < 0 := by
  decide

/-- C9 amended: provided every resolved timestamp is not later than
`now`, every numeric field of the overview is non-negative. -/
theorem c9_overview_nonneg (env : Env)
    (hts : ∀ t ∈ resolvedTimes env, t ≤ env.nowMs) :
    0 ≤ (runAggregation env).walletAgeDays ∧
      0 ≤ (runAggregation env).totalTransactions ∧
      0 ≤ (runAggregation env).baseTransactions ∧
      0 ≤ (runAggregation env).gasSpentEth := by
  refine ⟨?_, Nat.zero_le _, Nat.zero_le _, ?_⟩
  · have h := walletAge_spec env hts
    have hrw : (runAggregation env).walletAgeDays = (finalState env).walletAgeDays := rfl
    rw [hrw, h]
    unfold ageInDaysClaimed
    rcases hrt : resolvedTimes env with _ | ⟨t, ts⟩
    · simp [List.min?]
    · rw [hrt] at hts
      simp only [List.min?]
      exact fdiv_day_nonneg (by
        have := foldl_min_le env.nowMs ts t (hts t (by simp))
          (fun u hu => hts u (by simp [hu]))
        omega)
  · have hrw : (runAggregation env).gasSpentEth =
        ((finalState env).totalTransactions : ℚ) / 10000 := rfl
    rw [hrw]
    positivity

/-- Witness for C9. -/
theorem c9_witness :
    (∀ t ∈ resolvedTimes envW2, t ≤ envW2.nowMs) ∧
      0 ≤ (runAggregation envW2).walletAgeDays ∧
      0 ≤ (runAggregation envW2).totalTransactions ∧
      0 ≤ (runAggregation envW2).baseTransactions ∧
      0 ≤ (runAggregation envW2).gasSpentEth :=
  ⟨by decide, c9_overview_nonneg envW2 (by decide)⟩

/-! ### C10 — the gas estimate -/

/-- C10: the estimated cost is the deterministic function
`totalTransactions / 10000` of the transaction count alone: it is 0
exactly when the count is 0, and two requests with equal counts report
equal cost (no on-chain gas data occurs in the computation). -/
theorem c10_gas_deterministic (env env2 : Env)
    (h : (runAggregation env).totalTransactions = (runAggregation env2).totalTransactions) :
    (runAggregation env).gasSpentEth = ((runAggregation env).totalTransactions : ℚ) / 10000
    ∧ ((runAggregation env).gasSpentEth = 0 ↔ (runAggregation env).totalTransactions = 0)
    ∧ (runAggregation env).gasSpentEth = (runAggregation env2).gasSpentEth := by
  refine ⟨rfl, ?_, ?_⟩
  · have hrw : (runAggregation env).gasSpentEth =
        ((runAggregation env).totalTransactions : ℚ) / 10000 := rfl
    rw [hrw]
    rw [div_eq_zero_iff]
    simp
  · have hrw : (runAggregation env).gasSpentEth =
        ((runAggregation env).totalTransactions : ℚ) / 10000 := rfl
    have hrw2 : (runAggregation env2).gasSpentEth =
        ((runAggregation env2).totalTransactions : ℚ) / 10000 := rfl
    rw [hrw, hrw2, h]

/-- Witness for C10. -/
theorem c10_witness :
    (runAggregation envW1).gasSpentEth = ((runAggregation envW1).totalTransactions : ℚ) / 10000
    ∧ ((runAggregation envW1).gasSpentEth = 0 ↔ (runAggregation envW1).totalTransactions = 0)
    ∧ (runAggregation envW1).gasSpentEth = (runAggregation envW1).gasSpentEth :=
  c10_gas_deterministic envW1 envW1 rfl

/-! ### C3 — the launch-participation window -/

/-- One Base transfer whose earliest resolved timestamp is exactly one
day before the 2023-08-09 launch reference. -/
def envC3x : Env :=
  { baseEnv with
    baseTransfers := .ok [⟨"0xb", none⟩]
    getBlockBase := fun _ => .ok (some ⟨1691452800⟩) }

/-- C3: in the analytics route the flag is true iff the earliest
(last-fetched, as the fetch is descending) Base transfer exists, its
block timestamp resolves, and the timestamp lies in
`[launch, launch + 30 days)`; the story route however omits the lower
bound: at a timestamp one day before launch it answers `true` where
the claim (and the analytics route) answer `false`. -/
theorem c3_launch_window :
    (∀ env : Env, (runAggregation env).baseLaunchParticipant = true ↔
      ∃ tx b, (collectedBase env).getLast? = some tx ∧
        env.getBlockBase tx.blockNum = .ok (some b) ∧
        baseLaunchMs ≤ msOfBlock b ∧ msOfBlock b < baseLaunchMs + 2592000000)
    ∧ storyBaseLaunchFlag envC3x = true
    ∧ (runAggregation envC3x).baseLaunchParticipant = false
    ∧ msOfBlock ⟨1691452800⟩ < baseLaunchMs := by
  refine ⟨?_, by decide, by decide, by decide⟩
  intro env
  have hrw : (runAggregation env).baseLaunchParticipant = baseLaunchFlag env := rfl
  rw [hrw]
  unfold baseLaunchFlag
  rcases h1 : (collectedBase env).getLast? with _ | tx
  · simp
  · simp only
    rcases h2 : env.getBlockBase tx.blockNum with e | ob
    · simp [h2]
    · rcases ob with _ | b
      · simp [h2]
      · simp only [decide_eq_true_eq]
        constructor
        · intro hP
          exact ⟨tx, b, rfl, h2, hP.1, by omega⟩
        · rintro ⟨tx2, b2, htx, hb, hle, hlt⟩
          obtain rfl : tx = tx2 := by injection htx
          rw [h2] at hb
          obtain rfl : b = b2 := by injection hb with hb3; injection hb3
          exact ⟨hle, by omega⟩

/-! ### C6 — unresolvable inputs cause no downstream calls -/

/-- C6: a non-hex input whose single forward-resolution strategy
throws or returns null makes the request answer the unresolvable-
identity error having performed exactly the one resolution call: no
transfer fetch, no block lookup, no asset-ownership lookup. -/
theorem c6_unresolvable (env : Env) (raw : String)
    (h1 : hexTest raw = false) (h2 : plainHexTest raw = false)
    (h3 : env.resolveName raw = .error () ∨ env.resolveName raw = .ok none) :
    analyticsPOST env raw = .error errUnresolvable ∧
      postCalls env raw = [ExtCall.resolveName raw] := by
  have hres : resolveIdentity env raw = none := by
    unfold resolveIdentity
    rw [if_neg (by simp [h1]), if_neg (by simp [h2])]
    rcases h3 with h | h <;> rw [h]
  constructor
  · unfold analyticsPOST
    rw [hres]
  · unfold postCalls resolutionCalls
    rw [hres, if_neg (by simp [h1]), if_neg (by simp [h2])]
    simp

/-- Witness for C6 on the name input `"vitalik.eth"` with a null
resolution. -/
theorem c6_witness :
    hexTest "vitalik.eth" = false ∧ plainHexTest "vitalik.eth" = false ∧
      (baseEnv.resolveName "vitalik.eth" = .error () ∨
        baseEnv.resolveName "vitalik.eth" = .ok none) ∧
      analyticsPOST baseEnv "vitalik.eth" = .error errUnresolvable ∧
      postCalls baseEnv "vitalik.eth" = [ExtCall.resolveName "vitalik.eth"] :=
  ⟨by decide, by decide, Or.inr rfl,
    c6_unresolvable baseEnv "vitalik.eth" (by decide) (by decide) (Or.inr rfl)⟩

/-! ### C7 — hex inputs resolve locally -/

/-- C7: a prefixed 40-hex-digit input resolves to its lower-casing, an
unprefixed one to its lower-casing with the prefix prepended; in both
cases the resolution block makes only the best-effort reverse-name
lookup (never a forward resolution), and it succeeds for every
outcome of that lookup, a thrown one included. -/
theorem c7_hex_resolution (env : Env) (raw : String) :
    (hexTest raw = true →
      resolveIdentity env raw =
        some (raw.toLower, bestEffortName (env.lookupAddress raw.toLower)) ∧
      resolutionCalls raw = [ExtCall.lookupAddress raw.toLower])
    ∧ (plainHexTest raw = true →
      resolveIdentity env raw =
        some ("0x" ++ raw.toLower, bestEffortName (env.lookupAddress ("0x" ++ raw.toLower))) ∧
      resolutionCalls raw = [ExtCall.lookupAddress ("0x" ++ raw.toLower)]) := by
  constructor
  · intro h
    unfold resolveIdentity resolutionCalls
    rw [if_pos h, if_pos h]
    exact ⟨rfl, rfl⟩
  · intro h
    have hlen : raw.length = 40 := by
      unfold plainHexTest at h
      simp only [Bool.and_eq_true, beq_iff_eq] at h
      exact h.1
    have hx : hexTest raw = false := by
      unfold hexTest
      simp [hlen]
    unfold resolveIdentity resolutionCalls
    rw [if_neg (by simp [hx]), if_pos h, if_neg (by simp [hx]), if_pos h]
    exact ⟨rfl, rfl⟩

/-- Witness for C7 on mixed-case inputs with and without the prefix,
against an environment whose reverse lookup throws. -/
theorem c7_witness :
    hexTest "0xAbCdEf0123456789AbCdEf0123456789AbCdEf01" = true ∧
      plainHexTest "AbCdEf0123456789AbCdEf0123456789AbCdEf01" = true ∧
      resolveIdentity baseEnv "0xAbCdEf0123456789AbCdEf0123456789AbCdEf01" =
        some ("0xAbCdEf0123456789AbCdEf0123456789AbCdEf01".toLower,
          bestEffortName (baseEnv.lookupAddress "0xAbCdEf0123456789AbCdEf0123456789AbCdEf01".toLower)) ∧
      resolveIdentity baseEnv "AbCdEf0123456789AbCdEf0123456789AbCdEf01" =
        some ("0x" ++ "AbCdEf0123456789AbCdEf0123456789AbCdEf01".toLower,
          bestEffortName (baseEnv.lookupAddress ("0x" ++ "AbCdEf0123456789AbCdEf0123456789AbCdEf01".toLower))) :=
  ⟨by decide, by decide,
    ((c7_hex_resolution baseEnv "0xAbCdEf0123456789AbCdEf0123456789AbCdEf01").1 (by decide)).1,
    ((c7_hex_resolution baseEnv "AbCdEf0123456789AbCdEf0123456789AbCdEf01").2 (by decide)).1⟩

/-! ### C8 — the notable-asset fallback -/

/-- Stated from the claim (C8): the notable asset is the first owned
asset's title-or-collection-name from the Base lookup if that value is
non-empty, else the one from the Ethereum lookup if non-empty, else
the fixed default placeholder. -/
def notableAssetClaimed (env : Env) : String :=
  let fromLookup : Except Unit (List Nft) → String := fun r =>
    match r with
    | .ok (n :: _) => if n.title ≠ "" then n.title else n.contractName
    | _ => ""
  if fromLookup env.baseNfts ≠ "" then fromLookup env.baseNfts
  else if fromLookup env.ethNfts ≠ "" then fromLookup env.ethNfts
  else defaultNotable

/-- The Base lookup returns one NFT with neither title nor collection
name; the Ethereum lookup returns a titled NFT. -/
def envC8x : Env :=
  { baseEnv with
    baseNfts := .ok [⟨"", ""⟩]
    ethNfts := .ok [⟨"CoolArt", ""⟩] }

/-- C8 as stated is false on the code: when the Base lookup yields an
asset with empty title and collection name, the code keeps the inner
placeholder "a notable NFT" and never consults the Ethereum lookup,
while the claimed ordered fallback would take the Ethereum value. -/
theorem c8_counterexample : notableNft envC8x ≠ notableAssetClaimed envC8x := by
  decide

/-- Amended C8: the fallback is keyed on the emptiness of the lookup
result lists, not of the derived value — if the Base lookup yields at
least one asset, the value is its title, else its collection name,
else the inner placeholder "a notable NFT", and the Ethereum lookup is
not consulted; only when the Base lookup fails or is empty is the same
rule applied to the Ethereum lookup; if both fail or are empty the
value is the default placeholder. -/
def notableAssetAmended (env : Env) : String :=
  match env.baseNfts with
  | .ok (n :: _) => firstNonempty n
  | _ =>
    match env.ethNfts with
    | .ok (n :: _) => firstNonempty n
    | _ => defaultNotable

/-- The Base lookup's derived value does not collide with the sentinel
default string (true whenever the first Base asset is not literally
titled or collection-named "a unique digital artifact"). -/
def baseSentinelFree (env : Env) : Bool :=
  match env.baseNfts with
  | .ok (n :: _) => decide (firstNonempty n ≠ defaultNotable)
  | _ => true

/-- C8 amended: the code computes exactly the list-keyed ordered
fallback, each lookup independently fallible and never failing the
request (the computation is total).  The hypothesis excludes only the
degenerate sentinel collision of a Base asset literally titled
"a unique digital artifact". -/
theorem c8_notable_fallback (env : Env) (hqb : baseSentinelFree env = true) :
    notableNft env = notableAssetAmended env := by
  unfold notableNft notableAssetAmended
  unfold baseSentinelFree at hqb
  rcases hb : env.baseNfts with e | l
  all_goals rw [hb] at hqb
  · rcases he : env.ethNfts with e2 | l2
    · rfl
    · rcases l2 with _ | ⟨n2, rest2⟩
      · rfl
      · simp
  · rcases l with _ | ⟨n, rest⟩
    · rcases he : env.ethNfts with e2 | l2
      · rfl
      · rcases l2 with _ | ⟨n2, rest2⟩
        · rfl
        · simp
    · simp only [decide_eq_true_eq] at hqb
      rcases he : env.ethNfts with e2 | l2
      · rfl
      · rcases l2 with _ | ⟨n2, rest2⟩
        · rfl
        · simp [hqb]

/-- Base lookup throws, Ethereum lookup has a titled NFT: witness that
a failed first lookup falls through without failing the request. -/
def envW8 : Env :=
  { baseEnv with
    baseNfts := .error ()
    ethNfts := .ok [⟨"EthThing", "EthCol"⟩] }

/-- Witness for C8. -/
theorem c8_witness :
    baseSentinelFree envW8 = true ∧ notableNft envW8 = notableAssetAmended envW8 :=
  ⟨by decide, c8_notable_fallback envW8 (by decide)⟩

/-! ### C4 — the trailing 12-month histogram -/

/-- The `(year, month)` label of the month `idx` months after month 0
of year 0. -/
def labelOfIndex (idx : Int) : Int × Nat :=
  (Int.fdiv idx 12, (Int.emod idx 12).toNat + 1)

/-- The linear month index of a `(year, month 1..12)` label. -/
def labelIdx (p : Int × Nat) : Int := p.1 * 12 + ((p.2 : Int) - 1)

/-- The linear index of the calendar month containing `nowMs`. -/
def currentMonthIdx (nowMs : Int) : Int :=
  let c := civilFromDays (Int.fdiv nowMs dayMs)
  c.1 * 12 + ((c.2.1 : Int) - 1)

theorem le_daysInMonth (y : Int) (m : Nat) : 28 ≤ daysInMonth y m := by
  unfold daysInMonth
  split
  all_goals first | omega | (split <;> omega)

theorem labelIdx_labelOfIndex (i : Int) : labelIdx (labelOfIndex i) = i := by
  unfold labelIdx labelOfIndex
  simp only
  push_cast
  rw [Int.fdiv_eq_ediv i (by norm_num),
    show Int.emod i 12 = i % 12 from rfl]
  omega

theorem labelOfIndex_injective : Function.Injective labelOfIndex := by
  intro a b h
  have := congrArg labelIdx h
  rwa [labelIdx_labelOfIndex, labelIdx_labelOfIndex] at this

/-- With a day-of-month at most 28, `setMonth` cannot overflow and the
label is the month `m0` (0-based, possibly negative) of year `y`. -/
theorem setMonthLabel_no_overflow (y : Int) (m0 : Int) (d : Nat) (hd : d ≤ 28) :
    setMonthLabel y m0 d = labelOfIndex (y * 12 + m0) := by
  simp only [setMonthLabel, normalizeDate, labelOfIndex]
  rw [if_pos (le_trans hd (le_daysInMonth _ _))]

theorem finalState_counts (env : Env) (L : Int × Nat) :
    (finalState env).countsByMonth L = (allWindowLabels env).count L := by
  unfold finalState
  rw [foldl_counts]
  unfold stateAfterEth
  rw [foldl_counts]
  unfold allWindowLabels
  rw [List.count_append]
  simp [initialState]

theorem formattedHistory_no_overflow (nowMs : Int) (counts : Int × Nat → Nat)
    (hd : (civilFromDays (Int.fdiv nowMs dayMs)).2.2 ≤ 28) :
    formattedHistory nowMs counts =
      (List.range 12).map (fun (j : Nat) =>
        (labelOfIndex (currentMonthIdx nowMs - 11 + (j : Int)),
         counts (labelOfIndex (currentMonthIdx nowMs - 11 + (j : Int))))) := by
  simp only [formattedHistory]
  apply List.map_congr_left
  intro j hj
  have hj12 : j < 12 := List.mem_range.mp hj
  rw [setMonthLabel_no_overflow _ _ _ hd]
  have harith :
      (civilFromDays (Int.fdiv nowMs dayMs)).1 * 12 +
          (((civilFromDays (Int.fdiv nowMs dayMs)).2.1 : Int) - 1 - ((11 - j : Nat) : Int)) =
        currentMonthIdx nowMs - 11 + (j : Int) := by
    simp only [currentMonthIdx]
    omega
  rw [harith]

/-- 2024-05-31T00:00:00Z: a day-of-month that overflows `setMonth`. -/
def envC4x : Env := { baseEnv with nowMs := 1717113600000 }

/-- C4 as stated is false on the code: with the request dated
2024-05-31, `setMonth` overflows the 30-day months and the 12 bucket
labels contain duplicates (e.g. "Jul 2023" twice), so the history is
not one entry per calendar month of the trailing window. -/
theorem c4_counterexample :
    ¬ ((runAggregation envC4x).transactionHistory.map Prod.fst).Nodup := by
  decide

/-- C4 amended: provided the request date's day-of-month is at most
28, the history has exactly 12 entries whose labels are precisely the
12 consecutive calendar months ending in the current one, oldest
first, pairwise distinct, each entry counting exactly the
timestamp-resolved transfers bucketed into that month (hence 0 for
months with none). -/
theorem c4_trailing_window (env : Env)
    (hd : (civilFromDays (Int.fdiv env.nowMs dayMs)).2.2 ≤ 28) :
    (runAggregation env).transactionHistory.length = 12
    ∧ (runAggregation env).transactionHistory.map Prod.fst =
        (List.range 12).map (fun (j : Nat) => labelOfIndex (currentMonthIdx env.nowMs - 11 + (j : Int)))
    ∧ ((runAggregation env).transactionHistory.map Prod.fst).Nodup
    ∧ (runAggregation env).transactionHistory.Pairwise
        (fun p q => labelIdx p.1 < labelIdx q.1)
    ∧ ∀ p ∈ (runAggregation env).transactionHistory,
        p.2 = (allWindowLabels env).count p.1 := by
  have hrw : (runAggregation env).transactionHistory =
      formattedHistory env.nowMs (finalState env).countsByMonth := rfl
  rw [hrw, formattedHistory_no_overflow env.nowMs _ hd]
  have hmapfst :
      (List.map (fun (j : Nat) =>
        (labelOfIndex (currentMonthIdx env.nowMs - 11 + (j : Int)),
         (finalState env).countsByMonth
           (labelOfIndex (currentMonthIdx env.nowMs - 11 + (j : Int)))))
        (List.range 12)).map Prod.fst =
      (List.range 12).map (fun (j : Nat) => labelOfIndex (currentMonthIdx env.nowMs - 11 + (j : Int))) := by
    rw [List.map_map]
    apply List.map_congr_left
    intro j hj
    rfl
  refine ⟨by simp, hmapfst, ?_, ?_, ?_⟩
  · rw [hmapfst]
    apply List.Nodup.map _ (List.nodup_range 12)
    intro a b hab
    have := labelOfIndex_injective hab
    omega
  · rw [List.pairwise_map]
    apply List.Pairwise.imp _ (List.pairwise_lt_range 12)
    intro a b hab
    simp only [labelIdx_labelOfIndex]
    omega
  · intro p hp
    rw [List.mem_map] at hp
    obtain ⟨j, _, rfl⟩ := hp
    exact finalState_counts env _

/-- 2024-01-01T00:00:00Z: day-of-month 1. -/
def envW4 : Env := { baseEnv with nowMs := 1704067200000 }

/-- Witness for C4. -/
theorem c4_witness :
    (civilFromDays (Int.fdiv envW4.nowMs dayMs)).2.2 ≤ 28 ∧
      (runAggregation envW4).transactionHistory.length = 12 :=
  ⟨by decide, (c4_trailing_window envW4 (by decide)).1⟩

/-! ### C5 — counterparty ranking: association-list invariants -/

/-- The counterparty counter after both loops. -/
def interactionsOf (env : Env) : List (String × Nat) :=
  (finalState env).contractInteractions

theorem firstIdx_append_of_mem {k : String} :
    ∀ {l1 : List String} (l2 : List String), k ∈ l1 →
      firstIdx (l1 ++ l2) k = firstIdx l1 k
  | [], _, h => by simp at h
  | a :: t, l2, h => by
    by_cases ha : a = k
    · simp [firstIdx, ha]
    · have ht : k ∈ t := by
        rcases List.mem_cons.mp h with h2 | h2
        · exact absurd h2.symm ha
        · exact h2
      simp only [List.cons_append, firstIdx, ha, if_false, List.append_eq]
      have := firstIdx_append_of_mem l2 ht
      omega

theorem firstIdx_lt_length {k : String} :
    ∀ {l : List String}, k ∈ l → firstIdx l k < l.length
  | [], h => by simp at h
  | a :: t, h => by
    by_cases ha : a = k
    · simp [firstIdx, ha]
    · have ht : k ∈ t := by
        rcases List.mem_cons.mp h with h2 | h2
        · exact absurd h2.symm ha
        · exact h2
      simp only [firstIdx, ha, if_false, List.length_cons]
      exact Nat.succ_lt_succ (firstIdx_lt_length ht)

theorem firstIdx_append_of_not_mem {k : String} :
    ∀ {l1 : List String} (l2 : List String), k ∉ l1 →
      firstIdx (l1 ++ l2) k = l1.length + firstIdx l2 k
  | [], _, _ => by simp [firstIdx]
  | a :: t, l2, h => by
    have ha : ¬ a = k := fun hE => h (by simp [hE])
    have ht : k ∉ t := fun hE => h (by simp [hE])
    simp only [List.cons_append, firstIdx, ha, if_false, List.length_cons, List.append_eq]
    have := firstIdx_append_of_not_mem l2 ht
    omega

theorem bump_map_fst_mem {k : String} :
    ∀ {l : List (String × Nat)}, k ∈ l.map Prod.fst →
      (bump l k).map Prod.fst = l.map Prod.fst
  | [], h => by simp at h
  | (a, n) :: t, h => by
    by_cases ha : a = k
    · simp [bump, ha]
    · have ht : k ∈ t.map Prod.fst := by
        rcases (List.mem_cons).mp h with h | h
        · exact absurd h.symm ha
        · exact h
      simp only [bump, ha, if_false, List.map_cons]
      rw [bump_map_fst_mem ht]

theorem bump_eq_append {k : String} :
    ∀ {l : List (String × Nat)}, k ∉ l.map Prod.fst →
      bump l k = l ++ [(k, 1)]
  | [], _ => rfl
  | (a, n) :: t, h => by
    have ha : ¬ a = k := fun hE => h (by simp [hE])
    have ht : k ∉ t.map Prod.fst := fun hE => h (by simp [hE])
    simp only [bump, ha, if_false, List.cons_append]
    rw [bump_eq_append ht]

theorem bump_pos {k : String} :
    ∀ {l : List (String × Nat)}, (∀ p ∈ l, 0 < p.2) →
      ∀ p ∈ bump l k, 0 < p.2
  | [], _, p, hp => by
    simp only [bump, List.mem_singleton] at hp
    simp [hp]
  | (a, n) :: t, h, p, hp => by
    by_cases ha : a = k
    · simp only [bump, ha, if_pos rfl] at hp
      rcases (List.mem_cons).mp hp with h1 | h1
      · simp [h1]
      · exact h p (by simp [h1])
    · simp only [bump, ha, if_false] at hp
      rcases (List.mem_cons).mp hp with h1 | h1
      · exact h p (by simp [h1])
      · exact bump_pos (fun q hq => h q (by simp [hq])) p h1

theorem lookupCount_self :
    ∀ {l : List (String × Nat)}, (l.map Prod.fst).Nodup →
      ∀ p ∈ l, lookupCount l p.1 = p.2
  | [], _, p, hp => by simp at hp
  | (a, n) :: t, hnd, p, hp => by
    rw [List.map_cons, List.nodup_cons] at hnd
    rcases (List.mem_cons).mp hp with h1 | h1
    · subst h1
      simp [lookupCount]
    · have hmem : p.1 ∈ t.map Prod.fst := List.mem_map_of_mem Prod.fst h1
      have ha : ¬ a = p.1 := by
        intro hE
        rw [hE] at hnd
        exact hnd.1 hmem
      simp only [lookupCount, ha, if_false]
      exact lookupCount_self hnd.2 p h1

/-- The invariant the counterparty counter keeps while the processed
counterparty sequence is `pre`: unique keys, every entry keyed by an
encountered counterparty with a positive count, entries ordered by
first encounter, and every encountered counterparty present. -/
def goodInter (pre : List String) (l : List (String × Nat)) : Prop :=
  (l.map Prod.fst).Nodup ∧
  (∀ p ∈ l, p.1 ∈ pre ∧ 0 < p.2) ∧
  (l.map Prod.fst).Pairwise (fun a b => firstIdx pre a < firstIdx pre b) ∧
  (∀ a ∈ pre, a ∈ l.map Prod.fst)

theorem goodInter_nil : goodInter [] [] := by
  refine ⟨List.nodup_nil, ?_, List.Pairwise.nil, ?_⟩ <;> intro p hp <;> simp at hp

theorem goodInter_bump (pre : List String) (l : List (String × Nat)) (k : String)
    (h : goodInter pre l) : goodInter (pre ++ [k]) (bump l k) := by
  obtain ⟨h1, h2, h3, h4⟩ := h
  have hkeymem : ∀ a ∈ l.map Prod.fst, a ∈ pre := by
    intro a ha
    rw [List.mem_map] at ha
    obtain ⟨p, hp, rfl⟩ := ha
    exact (h2 p hp).1
  by_cases hk : k ∈ l.map Prod.fst
  · refine ⟨?_, ?_, ?_, ?_⟩
    · rw [bump_map_fst_mem hk]
      exact h1
    · intro p hp
      have hpk : p.1 ∈ l.map Prod.fst := by
        have hx : p.1 ∈ (bump l k).map Prod.fst := List.mem_map_of_mem Prod.fst hp
        rwa [bump_map_fst_mem hk] at hx
      exact ⟨List.mem_append_left _ (hkeymem p.1 hpk),
        bump_pos (fun q hq => (h2 q hq).2) p hp⟩
    · rw [bump_map_fst_mem hk]
      apply h3.imp_of_mem
      intro a b ha hb hab
      rw [firstIdx_append_of_mem [k] (hkeymem a ha),
        firstIdx_append_of_mem [k] (hkeymem b hb)]
      exact hab
    · intro a ha
      rw [bump_map_fst_mem hk]
      rcases List.mem_append.mp ha with ha | ha
      · exact h4 a ha
      · rw [List.mem_singleton] at ha
        subst ha
        exact hk
  · have hkpre : k ∉ pre := fun hE => hk (h4 k hE)
    rw [bump_eq_append hk]
    refine ⟨?_, ?_, ?_, ?_⟩
    · rw [List.map_append, List.nodup_append]
      refine ⟨h1, by simp, ?_⟩
      intro a ha hb
      simp only [List.map_cons, List.map_nil, List.mem_singleton] at hb
      subst hb
      exact hk ha
    · intro p hp
      rcases List.mem_append.mp hp with hp | hp
      · exact ⟨List.mem_append_left _ (h2 p hp).1, (h2 p hp).2⟩
      · rw [List.mem_singleton] at hp
        subst hp
        exact ⟨List.mem_append_right _ (by simp), by norm_num⟩
    · rw [List.map_append, List.pairwise_append]
      refine ⟨?_, by simp, ?_⟩
      · apply h3.imp_of_mem
        intro a b ha hb hab
        rw [firstIdx_append_of_mem [k] (hkeymem a ha),
          firstIdx_append_of_mem [k] (hkeymem b hb)]
        exact hab
      · intro a ha b hb
        simp only [List.map_cons, List.map_nil, List.mem_singleton] at hb
        rw [hb]
        have hapre : a ∈ pre := hkeymem a ha
        rw [firstIdx_append_of_mem [k] hapre, firstIdx_append_of_not_mem [k] hkpre]
        have := firstIdx_lt_length hapre
        omega
    · intro a ha
      rw [List.map_append]
      rcases List.mem_append.mp ha with ha | ha
      · exact List.mem_append_left _ (h4 a ha)
      · rw [List.mem_singleton] at ha
        subst ha
        exact List.mem_append_right _ (by simp)

theorem goodInter_fold (nowMs oya : Int) (gb : String → Except Unit (Option Block)) :
    ∀ (l : List Transfer) (st : AggState) (pre : List String),
      goodInter pre st.contractInteractions →
      goodInter (pre ++ l.filterMap Transfer.toAddr)
        ((l.foldl (processTransaction nowMs oya gb) st).contractInteractions)
  | [], st, pre, h => by simpa using h
  | tx :: l, st, pre, h => by
    rw [List.foldl_cons, List.filterMap_cons]
    have hi := processTransaction_inter nowMs oya gb st tx
    rcases htx : tx.toAddr with _ | k
    · simp only [htx] at hi ⊢
      exact goodInter_fold nowMs oya gb l _ pre (by rw [hi]; exact h)
    · simp only [htx] at hi ⊢
      have hstep := goodInter_fold nowMs oya gb l _ (pre ++ [k])
        (by rw [hi]; exact goodInter_bump pre st.contractInteractions k h)
      rwa [List.append_assoc, List.singleton_append] at hstep

theorem goodInter_final (env : Env) : goodInter (toSeq env) (interactionsOf env) := by
  have h1 := goodInter_fold env.nowMs (oneYearAgoMs env.nowMs) env.getBlockEth
    (collectedEth env) initialState [] goodInter_nil
  have h2 := goodInter_fold env.nowMs (oneYearAgoMs env.nowMs) env.getBlockBase
    (collectedBase env) (stateAfterEth env)
    ((collectedEth env).filterMap Transfer.toAddr) (by simpa using h1)
  unfold toSeq interactionsOf finalState
  rw [List.filterMap_append]
  exact h2

/-- Stability of the embedded JS sort: restricted to any one count
value, the sorted list is the input list (so ties keep their relative
input order). -/
theorem insertionSort_filter_stable (c : Nat) :
    ∀ l : List (String × Nat),
      (List.insertionSort dappRel l).filter (fun p => p.2 == c) =
        l.filter (fun p => p.2 == c)
  | [] => rfl
  | a :: l => by
    have hsplit :
        ((List.insertionSort dappRel l).takeWhile fun b => decide ¬ dappRel a b).filter
            (fun p => p.2 == c) ++
          ((List.insertionSort dappRel l).dropWhile fun b => decide ¬ dappRel a b).filter
            (fun p => p.2 == c) =
        (List.insertionSort dappRel l).filter (fun p => p.2 == c) := by
      rw [← List.filter_append, List.takeWhile_append_dropWhile]
    rw [List.insertionSort_cons_eq_take_drop, List.filter_append]
    by_cases hc : (a.2 == c) = true
    · have hceq : a.2 = c := by simpa using hc
      have htw : ((List.insertionSort dappRel l).takeWhile
          fun b => decide ¬ dappRel a b).filter (fun p => p.2 == c) = [] := by
        rw [List.filter_eq_nil_iff]
        intro x hx
        have hpx := List.mem_takeWhile_imp hx
        have hgt : a.2 < x.2 := by
          by_contra hle
          push_neg at hle
          simp [dappRel, hle] at hpx
        simp only [beq_iff_eq]
        omega
      have hfa : List.filter (fun p => p.2 == c)
          (a :: (List.insertionSort dappRel l).dropWhile fun b => decide ¬ dappRel a b) =
          a :: List.filter (fun p => p.2 == c)
            ((List.insertionSort dappRel l).dropWhile fun b => decide ¬ dappRel a b) := by
        rw [List.filter_cons, hc]
        simp
      have hfl : List.filter (fun p => p.2 == c) (a :: l) =
          a :: List.filter (fun p => p.2 == c) l := by
        rw [List.filter_cons, hc]
        simp
      rw [htw, List.nil_append] at hsplit
      rw [htw, List.nil_append, hfa, hfl, hsplit, insertionSort_filter_stable c l]
    · have hcf : (a.2 == c) = false := by simpa using hc
      have hfa : List.filter (fun p => p.2 == c)
          (a :: (List.insertionSort dappRel l).dropWhile fun b => decide ¬ dappRel a b) =
          List.filter (fun p => p.2 == c)
            ((List.insertionSort dappRel l).dropWhile fun b => decide ¬ dappRel a b) := by
        rw [List.filter_cons, hcf]
        simp
      have hfl : List.filter (fun p => p.2 == c) (a :: l) =
          List.filter (fun p => p.2 == c) l := by
        rw [List.filter_cons, hcf]
        simp
      rw [hfa, hfl, hsplit, insertionSort_filter_stable c l]

theorem sortedDapps_sorted (l : List (String × Nat)) :
    (sortedDapps l).Pairwise (fun p q => q.2 ≤ p.2) := by
  unfold sortedDapps
  rw [List.pairwise_map]
  exact List.Pairwise.sublist (List.take_sublist 5 _) (List.sorted_insertionSort dappRel l)

theorem finalState_lookup (env : Env) (a : String) :
    lookupCount (interactionsOf env) a = (toSeq env).count a := by
  unfold interactionsOf finalState
  rw [foldl_lookup]
  unfold stateAfterEth
  rw [foldl_lookup]
  unfold toSeq
  rw [List.filterMap_append, List.count_append]
  simp [initialState, lookupCount]

/-- C5: the top-counterparty ranking has length at most 5; it is
sorted non-increasing by count; the counter counts every transfer of
the union by counterparty (transfers without one excluded); every
ranked entry is a positive count of some encountered counterparty,
labelled by its 6-character prefix plus an ellipsis; the sort is
stable (count-classes keep input order) over a counter that lists
counterparties in first-encounter order. -/
theorem c5_counterparty_ranking (env : Env) :
    (runAggregation env).topDappInteractions.length ≤ 5
    ∧ (runAggregation env).topDappInteractions.Pairwise (fun p q => q.2 ≤ p.2)
    ∧ (∀ a : String, lookupCount (interactionsOf env) a = (toSeq env).count a)
    ∧ (∀ p ∈ (runAggregation env).topDappInteractions,
        0 < p.2 ∧ ∃ k, k ∈ toSeq env ∧ p.1 = shorten k ∧ p.2 = (toSeq env).count k)
    ∧ (∀ c : Nat,
        ((interactionsOf env).insertionSort dappRel).filter (fun p => p.2 == c) =
          (interactionsOf env).filter (fun p => p.2 == c))
    ∧ ((interactionsOf env).map Prod.fst).Pairwise
        (fun a b => firstIdx (toSeq env) a < firstIdx (toSeq env) b) := by
  have hrw : (runAggregation env).topDappInteractions =
      sortedDapps (interactionsOf env) := rfl
  obtain ⟨hnd, hmem, hpw, _⟩ := goodInter_final env
  refine ⟨?_, ?_, finalState_lookup env, ?_,
    fun c => insertionSort_filter_stable c _, hpw⟩
  · rw [hrw]
    unfold sortedDapps
    rw [List.length_map, List.length_take]
    exact min_le_left _ _
  · rw [hrw]
    exact sortedDapps_sorted _
  · intro p hp
    rw [hrw] at hp
    unfold sortedDapps at hp
    rw [List.mem_map] at hp
    obtain ⟨q, hq, rfl⟩ := hp
    have hq2 : q ∈ interactionsOf env := by
      have hx := List.mem_of_mem_take hq
      rwa [List.mem_insertionSort] at hx
    exact ⟨(hmem q hq2).2, q.1, (hmem q hq2).1, rfl,
      (lookupCount_self hnd q hq2).symm.trans (finalState_lookup env q.1)⟩

/-- Three ETH transfers to two counterparties. -/
def envW5 : Env :=
  { baseEnv with
    ethTransfers := .ok
      [⟨"e1", some "0xalpha"⟩, ⟨"e2", some "0xbeta"⟩, ⟨"e3", some "0xalpha"⟩] }

/-- Witness for C5. -/
theorem c5_witness :
    (runAggregation envW5).topDappInteractions.length ≤ 5 ∧
      lookupCount (interactionsOf envW5) "0xalpha" = (toSeq envW5).count "0xalpha" ∧
      (0 < (shorten "0xalpha", (2 : Nat)).2 ∧
        ∃ k, k ∈ toSeq envW5 ∧ (shorten "0xalpha", (2 : Nat)).1 = shorten k ∧
          (shorten "0xalpha", (2 : Nat)).2 = (toSeq envW5).count k) :=
  ⟨(c5_counterparty_ranking envW5).1,
   (c5_counterparty_ranking envW5).2.2.1 "0xalpha",
   (c5_counterparty_ranking envW5).2.2.2.1 (shorten "0xalpha", 2) (by decide)⟩

end OnchainStory
